import Mathlib

/-!
# Verification of the roboarm host client (`src/host/src/roboarm/client.py`)

A shallow embedding of the protocol core of the roboarm client library:
command encoding, serial response framing, serial status-line parsing,
connection-lifecycle state, and the idle-polling loop.

Python strings are modelled as `List Char` (`Str` below): the client's logic
is dominated by string splitting/joining/prefix tests, which have good
induction principles on lists.  Python `dict`s that are built key-by-key in
insertion order are modelled as association lists.  Exceptions raised by
fallible parsing (`int(val)` raising `ValueError`, indexing an empty list)
are modelled by `Option`.  Wall-clock time in the polling loops is modelled
by exact rational arithmetic, with each loop iteration advancing time by the
sleep interval (the "deterministic poll timing" reading of the source).
-/

namespace Roboarm

/-- Python `str`, modelled as a list of characters. -/
abbrev Str := List Char

/-! ## Python string-primitive models

These model the Python string builtins the client uses (`str.split()`,
`str.split(sep)`, `"sep".join`, `str.startswith`, `in`, slicing).  They are
models of the Python standard library, not of repository code.
-/

/-- Worker for `pySplitWs`: accumulates the current word (reversed). -/
def splitWsGo : Str → Str → List Str
  | [], acc => if acc = [] then [] else [acc.reverse]
  | c :: cs, acc =>
    if c.isWhitespace then
      if acc = [] then splitWsGo cs []
      else acc.reverse :: splitWsGo cs []
    else splitWsGo cs (c :: acc)

/-- Python `s.split()` (no argument): split on runs of whitespace,
discarding empty pieces. -/
def pySplitWs (s : Str) : List Str := splitWsGo s []

/-- Python `s.split(sep)` for a single-character separator: split at every
occurrence of `sep`, keeping empty pieces; the result is never empty. -/
def splitChar (sep : Char) : Str → List Str
  | [] => [[]]
  | c :: cs =>
    if c = sep then [] :: splitChar sep cs
    else
      match splitChar sep cs with
      | [] => [[c]]
      | r :: rs => (c :: r) :: rs

/-- Python `sep.join(pieces)` for a single-character separator. -/
def joinSep (sep : Char) : List Str → Str
  | [] => []
  | [r] => r
  | r :: rs => r ++ sep :: joinSep sep rs

/-- Python `s.startswith(pre)`. -/
def pyStartsWith (pre s : Str) : Bool := List.isPrefixOf pre s

/-- Value of a decimal digit character, `none` on a non-digit. -/
def digitVal? (c : Char) : Option Nat :=
  if c.isDigit then some (c.toNat - 48) else none

/-- Decimal digit-string value; `none` on the empty string or a
non-digit character. -/
def decDigits? (cs : Str) : Option Nat :=
  if cs = [] then none
  else cs.foldlM (fun acc c => (digitVal? c).map (fun d => acc * 10 + d)) 0

/-- Python `int(s)` on a plain decimal literal with an optional sign:
`none` models the `ValueError` raised on malformed input.  (Python also
strips surrounding whitespace and accepts digit-group underscores; the
controller's comma-separated values never contain either, so those cases
are not modelled.) -/
def parsePyInt : Str → Option Int
  | '+' :: cs => (decDigits? cs).map (fun n => (n : Int))
  | '-' :: cs => (decDigits? cs).map (fun n => -(n : Int))
  | cs => (decDigits? cs).map (fun n => (n : Int))

/-! ## Data model -/

/-- `RoboarmStatus` dataclass: current status of the robotic arm.  The
position/target/distance dicts are association lists in insertion order. -/
structure RoboarmStatus where
  enabled : Bool
  moving : Bool
  positions : List (String × Int)
  targets : List (String × Int)
  distances : List (String × Int)
  ip : Option String := none
  uptime : Option Int := none
deriving DecidableEq, Repr

/-- The JSON status payload an HTTP `/api/status` reply may carry, as far as
`RoboarmStatus.from_dict` consumes it: each field independently present or
absent.  The mappings are whatever the server sent. -/
structure StatusPayload where
  enabled : Option Bool
  moving : Option Bool
  positions : Option (List (String × Int))
  targets : Option (List (String × Int))
  distances : Option (List (String × Int))
  ip : Option String
  uptime : Option Int

/-- `RoboarmStatus.from_dict`: structural decode with field defaults
(`data.get(key, default)`). -/
def RoboarmStatus.from_dict (data : StatusPayload) : RoboarmStatus :=
  { enabled := data.enabled.getD false
    moving := data.moving.getD false
    positions := data.positions.getD []
    targets := data.targets.getD []
    distances := data.distances.getD []
    ip := data.ip
    uptime := data.uptime }

/-- Result dict of `send_command`: keys `success` and `message`. -/
structure CmdResult where
  success : Bool
  message : Str
deriving DecidableEq, Repr

/-! ## Serial transport: `_send_serial` read loop -/

/-- `"ok"`-prefix test (`line.startswith("ok")`). -/
def hasOkMark (l : Str) : Bool := pyStartsWith ("ok".toList) l

/-- `"error:"`-prefix test (`line.startswith("error:")`). -/
def hasErrMark (l : Str) : Bool := pyStartsWith ("error:".toList) l

/-- The `response_lines` captured by the `_send_serial` read loop, given the
(already `.strip()`-ed) lines that arrive on the port before the wall-clock
deadline: empty lines are skipped (`if line:`); each non-empty line is
appended; a line starting with `ok` or `error:` is appended and ends the
loop; exhausting the list models the timeout elapsing. -/
def collectLines : List Str → List Str
  | [] => []
  | l :: rest =>
    if l = [] then collectLines rest
    else if hasOkMark l || hasErrMark l then [l]
    else l :: collectLines rest

/-- Result of `_send_serial`, as a function of the lines arriving before the
deadline: if no lines were captured, the fixed no-response failure;
otherwise the captured lines joined with newlines, failing iff the last
captured line starts with `error:`. -/
def sendSerialResult (incoming : List Str) : CmdResult :=
  let responseLines := collectLines incoming
  match responseLines.getLast? with
  | none => ⟨false, "No response from controller".toList⟩
  | some last =>
    if hasErrMark last then ⟨false, joinSep '\n' responseLines⟩
    else ⟨true, joinSep '\n' responseLines⟩

/-! ## Serial status-line parsing (`RoboarmClient.status`, serial branch) -/

/-- The positions dict built from the whitespace-split parts of the status
message: when there are at least two parts and the second starts with `P:`,
the remainder of that part is split on commas and each piece parsed with
`int`, entry `i` (0-based) keyed `j(i+1)`; otherwise the dict stays empty.
`none` models the `ValueError` escaping from `int(val)`. -/
def positionsOfParts : List Str → Option (List (String × Int))
  | _p0 :: p1 :: _ =>
    if pyStartsWith ("P:".toList) p1 then
      ((splitChar ',' (p1.drop 2)).mapM parsePyInt).map (enumKeys 0)
    else some []
  | _ => some []
where
  /-- Keys the parsed values `j(i+1)`, `j(i+2)`, … in order, as the
  `enumerate` loop does. -/
  enumKeys : Nat → List Int → List (String × Int)
    | _, [] => []
    | i, v :: vs => ("j" ++ toString (i + 1), v) :: enumKeys (i + 1) vs

/-- The serial branch of `status()`: split the reply message on whitespace;
`enabled`/`moving` are membership of `E`/`M` in the first part; positions
come from `positionsOfParts`; targets and distances are left empty.  `none`
models the exceptions the Python code can raise here (`IndexError` on
`parts[0]` when the message is pure whitespace, `ValueError` from
`int`). -/
def parseSerialStatus (msg : Str) : Option RoboarmStatus :=
  match pySplitWs msg with
  | [] => none
  | p0 :: rest =>
    (positionsOfParts (p0 :: rest)).map fun ps =>
      { enabled := p0.contains 'E'
        moving := p0.contains 'M'
        positions := ps
        targets := []
        distances := [] }

/-- `status()` on the serial transport as a function of the lines arriving
before the deadline: `send_command("?")`, then parse the result's message
(whether or not the exchange succeeded). -/
def serialStatus (incoming : List Str) : Option RoboarmStatus :=
  parseSerialStatus (sendSerialResult incoming).message

/-! ## Command encoder (`move` and fixed commands) -/

/-- The f-string token `" J{i}:{pos}"` appended for a specified joint. -/
def jointToken (i : Nat) (pos : Int) : Str :=
  " J".toList ++ (toString i).toList ++ ':' :: (toString pos).toList

/-- One iteration of the `move` loop body: append the joint token when the
target is provided, otherwise leave the command unchanged. -/
def moveStep (c : Str) (p : Nat × Option Int) : Str :=
  match p.2 with
  | some pos => c ++ jointToken p.1 pos
  | none => c

/-- `RoboarmClient.move`: start from `G1` (relative) or `G0` (absolute) and
fold the loop body over `enumerate([j1, ..., j6], 1)`. -/
def moveCmd (j1 j2 j3 j4 j5 j6 : Option Int) (relative : Bool) : Str :=
  let cmd := if relative then "G1".toList else "G0".toList
  let joints := [j1, j2, j3, j4, j5, j6]
  (List.enumFrom 1 joints).foldl moveStep cmd

/-! ## Client construction (`__init__`) and lifecycle -/

/-- A character allowed in a URL scheme after the first: letters, digits,
`+`, `-`, `.`. -/
def schemeChar (c : Char) : Bool :=
  c.isAlphanum || c = '+' || c = '-' || c = '.'

/-- Scheme extraction of `urllib.parse.urlparse` (a standard-library model,
not repository code): the part before the first `:`, lower-cased, provided
it is non-empty, starts with a letter and consists of scheme characters;
otherwise the empty scheme. -/
def urlScheme (url : Str) : Str :=
  let pre := url.takeWhile (fun c => c ≠ ':')
  if pre.length < url.length ∧ pre ≠ [] ∧
      (pre.headD ' ').isAlpha ∧ pre.all schemeChar then
    pre.map Char.toLower
  else []

/-- Transport kind selected at construction. -/
inductive Mode where
  | serial
  | http
deriving DecidableEq, Repr

/-- The scheme dispatch of `RoboarmClient.__init__`: `serial` selects the
serial mode, `http`/`https` the HTTP mode, and any other scheme raises
`ValueError` (the spec's `ConfigurationError`) — modelled as `Except` with
the f-string message as payload.  No connection is attempted here; the
transport handles stay absent until `connect`. -/
def initMode (url : Str) : Except Str Mode :=
  let scheme := urlScheme url
  if scheme = "serial".toList then .ok .serial
  else if scheme = "http".toList ∨ scheme = "https".toList then .ok .http
  else .error ("Unsupported URL scheme: ".toList ++ scheme)

/-- Whether an `Except` carries a success value. -/
def exceptOk : Except Str Mode → Bool
  | .ok _ => true
  | .error _ => false

/-- The mutable state of a `RoboarmClient`: configuration plus the optional
transport handles (`_serial`, `_http_client`).  Handles are opaque
identifiers; both are `none` until `connect`. -/
structure ClientState where
  url : Str
  timeout : ℚ
  baudRate : Nat
  serialHandle : Option Nat
  httpHandle : Option Nat
deriving DecidableEq, Repr

/-- A `close()` call on an underlying transport object, recorded as an
observable effect of `disconnect`. -/
inductive CloseEvent where
  | serialClosed (handle : Nat)
  | httpClosed (handle : Nat)
deriving DecidableEq, Repr

/-- `RoboarmClient.disconnect`: close and drop each transport handle that is
present (a pyserial/httpx handle object is always truthy, so `if
self._serial:` is an is-not-None test).  Returns the new state together
with the close effects performed. -/
def disconnect (s : ClientState) : ClientState × List CloseEvent :=
  let (s1, e1) :=
    match s.serialHandle with
    | some h => ({ s with serialHandle := none }, [CloseEvent.serialClosed h])
    | none => (s, [])
  let (s2, e2) :=
    match s1.httpHandle with
    | some h => ({ s1 with httpHandle := none }, [CloseEvent.httpClosed h])
    | none => (s1, [])
  (s2, e1 ++ e2)

/-! ## Idle-wait polling loop (`wait_for_idle`)

The loop computes `end_time = now + timeout` once, then each iteration
checks the wall clock, issues a status query, returns `True` if `moving` is
false, and otherwise sleeps `poll_interval`.  With the status query and
check taking negligible time, iteration `k` runs at `k * poll_interval`
after entry.  `statuses k` is the status the `k`-th query returns.  The
`fuel` argument bounds the recursion; `waitFuel` iterations are enough for
any positive poll interval, so the model agrees with the unbounded loop
there. -/

/-- The polling loop: at iteration `k` (fuel remaining `fuel`), continue
while `k * poll < timeout`; return `true` and the number of queries issued
as soon as a query sees `moving = false`; return `false` once the deadline
has passed.  Fuel exhaustion also returns `false` with the query count. -/
def waitPolls (statuses : Nat → RoboarmStatus) (timeout poll : ℚ) :
    Nat → Nat → Bool × Nat
  | 0, k => (false, k)
  | fuel + 1, k =>
    if (k : ℚ) * poll < timeout then
      if (statuses k).moving then waitPolls statuses timeout poll fuel (k + 1)
      else (true, k + 1)
    else (false, k)

/-- Enough iterations for the deadline to pass whenever `0 < poll`:
`timeout ≤ waitFuel timeout poll * poll` (proved below). -/
def waitFuel (timeout poll : ℚ) : Nat :=
  timeout.num.toNat * poll.den + 1

/-- `RoboarmClient.wait_for_idle`, returning the result together with the
number of status queries issued. -/
def wait_for_idle (statuses : Nat → RoboarmStatus) (timeout poll : ℚ) :
    Bool × Nat :=
  waitPolls statuses timeout poll (waitFuel timeout poll) 0

/-! ## Spec-side definitions

These follow the spec's words, for comparison with the definitions above
that were translated from the source. -/

/-- Spec-side: the token contributed by one joint of a move command —
the joint's ` J i : value` token when a target is provided, nothing
otherwise. -/
def optJointTok (i : Nat) : Option Int → Str
  | some v => jointToken i v
  | none => []

/-- Spec-side: `G1` (relative) or `G0` (absolute) followed by exactly one
token per specified joint, in ascending joint order (1-based), and zero
tokens for unspecified joints. -/
def specMoveCmd (j1 j2 j3 j4 j5 j6 : Option Int) (relative : Bool) : Str :=
  (if relative then "G1".toList else "G0".toList)
    ++ optJointTok 1 j1 ++ optJointTok 2 j2 ++ optJointTok 3 j3
    ++ optJointTok 4 j4 ++ optJointTok 5 j5 ++ optJointTok 6 j6

/-- The concatenated joint tokens for a list of optional targets starting at
joint index `i`. -/
def specTokens : Nat → List (Option Int) → Str
  | _, [] => []
  | i, o :: rest => optJointTok i o ++ specTokens (i + 1) rest

/-- The fixed joint-id key set of the data model. -/
def jointKeys : List String := ["j1", "j2", "j3", "j4", "j5", "j6"]

/-- The §3 invariant as far as the serial status path can establish it:
targets and distances empty, every positions key drawn from `jointKeys`. -/
def keysBounded (st : RoboarmStatus) : Prop :=
  st.targets = [] ∧ st.distances = [] ∧ ∀ kv ∈ st.positions, kv.1 ∈ jointKeys

/-- The URL schemes `__init__` accepts. -/
def allowedSchemes : List Str :=
  ["serial".toList, "http".toList, "https".toList]

/-! ## Helper lemmas -/

lemma foldl_moveStep (l : List (Option Int)) :
    ∀ (i : Nat) (cmd : Str),
      (List.enumFrom i l).foldl moveStep cmd = cmd ++ specTokens i l := by
  induction l with
  | nil => intro i cmd; simp [specTokens, List.enumFrom]
  | cons o rest ih =>
    intro i cmd
    cases o with
    | none =>
      simp [List.enumFrom, List.foldl, moveStep, specTokens, optJointTok, ih]
    | some v =>
      simp [List.enumFrom, List.foldl, moveStep, specTokens, optJointTok, ih,
        List.append_assoc]

lemma splitWsGo_no_ws_append (w : Str) (hw : ∀ c ∈ w, c.isWhitespace = false) :
    ∀ (s acc : Str), splitWsGo (w ++ s) acc = splitWsGo s (w.reverse ++ acc) := by
  induction w with
  | nil => intro s acc; simp
  | cons c w' ih =>
    intro s acc
    have hc : c.isWhitespace = false := hw c (by simp)
    have hw' : ∀ d ∈ w', d.isWhitespace = false := fun d hd => hw d (by simp [hd])
    simp only [List.cons_append, splitWsGo, hc, Bool.false_eq_true, if_false]
    simpa using ih hw' s (c :: acc)

lemma pySplitWs_word_cons (w rest : Str) (hne : w ≠ [])
    (hw : ∀ c ∈ w, c.isWhitespace = false) :
    pySplitWs (w ++ ' ' :: rest) = w :: pySplitWs rest := by
  have hrev : w.reverse ≠ [] := by simpa using hne
  unfold pySplitWs
  rw [splitWsGo_no_ws_append w hw]
  simp only [List.append_nil, splitWsGo, Char.isWhitespace]
  norm_num [hrev]

lemma pySplitWs_word (w : Str) (hne : w ≠ [])
    (hw : ∀ c ∈ w, c.isWhitespace = false) :
    pySplitWs w = [w] := by
  have hrev : w.reverse ≠ [] := by simpa using hne
  unfold pySplitWs
  rw [show w = w ++ [] by simp, splitWsGo_no_ws_append w hw]
  simp [splitWsGo, hrev]

lemma splitChar_no_sep (sep : Char) (r : Str) (h : sep ∉ r) :
    splitChar sep r = [r] := by
  induction r with
  | nil => rfl
  | cons c cs ih =>
    have hc : ¬c = sep := fun hcs => h (by simp [hcs])
    have hcs : sep ∉ cs := fun hin => h (by simp [hin])
    simp only [splitChar, if_neg hc, ih hcs]

lemma splitChar_append_sep (sep : Char) (r tail : Str) (h : sep ∉ r) :
    splitChar sep (r ++ sep :: tail) = r :: splitChar sep tail := by
  induction r with
  | nil => simp [splitChar]
  | cons c cs ih =>
    have hc : ¬c = sep := fun hcs => h (by simp [hcs])
    have hcs : sep ∉ cs := fun hin => h (by simp [hin])
    have hne : splitChar sep (cs ++ sep :: tail) = cs :: splitChar sep tail :=
      ih hcs
    simp only [List.cons_append, splitChar, if_neg hc]
    rw [show cs.append (sep :: tail) = cs ++ sep :: tail from rfl, hne]

lemma splitChar_joinSep (sep : Char) (reps : List Str) (hne : reps ≠ [])
    (h : ∀ r ∈ reps, sep ∉ r) :
    splitChar sep (joinSep sep reps) = reps := by
  induction reps with
  | nil => exact absurd rfl hne
  | cons r rs ih =>
    cases rs with
    | nil => exact splitChar_no_sep sep r (h r (by simp))
    | cons r2 rs2 =>
      have hr : sep ∉ r := h r (by simp)
      have hrest : ∀ x ∈ r2 :: rs2, sep ∉ x := fun x hx => h x (by simp [hx])
      simp only [joinSep, splitChar_append_sep sep r _ hr,
        ih (by simp) hrest]

lemma collectLines_all_empty :
    ∀ incoming : List Str, (∀ l ∈ incoming, l = []) → collectLines incoming = [] := by
  intro incoming
  induction incoming with
  | nil => intro _; rfl
  | cons l rest ih =>
    intro h
    have hl : l = [] := h l (by simp)
    simp only [collectLines, if_pos hl]
    exact ih fun x hx => h x (by simp [hx])

lemma enumKeys_length (vals : List Int) :
    ∀ i, (positionsOfParts.enumKeys i vals).length = vals.length := by
  induction vals with
  | nil => intro i; rfl
  | cons v vs ih => intro i; simp [positionsOfParts.enumKeys, ih]

lemma enumKeys_mem (vals : List Int) :
    ∀ (i : Nat) (kv : String × Int), kv ∈ positionsOfParts.enumKeys i vals →
      ∃ j, i ≤ j ∧ j < i + vals.length ∧ kv.1 = "j" ++ toString (j + 1) := by
  induction vals with
  | nil => intro i kv h; simp [positionsOfParts.enumKeys] at h
  | cons v vs ih =>
    intro i kv h
    simp only [positionsOfParts.enumKeys, List.mem_cons] at h
    rcases h with rfl | h
    · exact ⟨i, le_refl i, by simp, rfl⟩
    · obtain ⟨j, hij, hjlt, hkey⟩ := ih (i + 1) kv h
      exact ⟨j, by omega, by simp at hjlt ⊢; omega, hkey⟩

lemma key_mem_jointKeys : ∀ j : Nat, j < 6 → ("j" ++ toString (j + 1)) ∈ jointKeys := by
  decide

lemma positionsOfParts_shape (parts : List Str) (ps : List (String × Int))
    (h : positionsOfParts parts = some ps) :
    ∃ vals : List Int, ps = positionsOfParts.enumKeys 0 vals := by
  match parts with
  | [] => exact ⟨[], by simpa [positionsOfParts] using h.symm⟩
  | [p0] => exact ⟨[], by simpa [positionsOfParts] using h.symm⟩
  | p0 :: p1 :: rest =>
    by_cases hp : pyStartsWith ("P:".toList) p1 = true
    · simp only [positionsOfParts, if_pos hp, Option.map_eq_some'] at h
      obtain ⟨vals, _, hvals⟩ := h
      exact ⟨vals, hvals.symm⟩
    · simp only [positionsOfParts, if_neg hp, Option.some_inj] at h
      exact ⟨[], by simp [h.symm, positionsOfParts.enumKeys]⟩

lemma timeout_le_waitFuel_mul (timeout poll : ℚ) (hp : 0 < poll) :
    timeout ≤ (waitFuel timeout poll : ℚ) * poll := by
  have hnum : timeout ≤ (timeout.num.toNat : ℚ) := by
    rcases le_or_lt 0 timeout.num with hn | hn
    · have h1 : timeout ≤ (timeout.num : ℚ) := by
        conv_lhs => rw [← Rat.num_div_den timeout]
        apply div_le_self (by exact_mod_cast hn)
        exact_mod_cast timeout.den_pos
      have h2 : (timeout.num : ℚ) ≤ (timeout.num.toNat : ℚ) := by
        exact_mod_cast Int.self_le_toNat timeout.num
      exact h1.trans h2
    · have h1 : timeout < 0 := Rat.num_neg.mp hn
      exact h1.le.trans (by positivity)
  have hden : (1 : ℚ) ≤ (poll.den : ℚ) * poll := by
    have hd : ((poll.den : ℚ)) ≠ 0 := by
      exact_mod_cast poll.den_pos.ne'
    have h1 : (poll.den : ℚ) * poll = (poll.num : ℚ) := by
      rw [(div_eq_iff hd).mp (Rat.num_div_den poll), mul_comm]
    rw [h1]
    exact_mod_cast Rat.num_pos.mpr hp
  have hcast : ((waitFuel timeout poll : ℚ)) =
      (timeout.num.toNat : ℚ) * (poll.den : ℚ) + 1 := by
    unfold waitFuel
    push_cast
    ring
  rw [hcast]
  have htn : (0 : ℚ) ≤ (timeout.num.toNat : ℚ) := by positivity
  nlinarith

lemma lt_waitFuel (timeout poll : ℚ) (hp : 0 < poll) (m : Nat)
    (hm : (m : ℚ) * poll < timeout) : m < waitFuel timeout poll := by
  have h1 : (m : ℚ) * poll < (waitFuel timeout poll : ℚ) * poll :=
    hm.trans_le (timeout_le_waitFuel_mul timeout poll hp)
  have h2 : (m : ℚ) < (waitFuel timeout poll : ℚ) :=
    lt_of_mul_lt_mul_right h1 hp.le
  exact_mod_cast h2

lemma waitPolls_reaches (statuses : Nat → RoboarmStatus) (timeout poll : ℚ)
    (hp : 0 < poll) (m : Nat) (hm : (m : ℚ) * poll < timeout)
    (hstop : (statuses m).moving = false)
    (hbefore : ∀ j < m, (statuses j).moving = true) :
    ∀ fuel k, k ≤ m → m < fuel + k →
      waitPolls statuses timeout poll fuel k = (true, m + 1) := by
  intro fuel
  induction fuel with
  | zero => intro k hk hfk; omega
  | succ n ih =>
    intro k hk hfk
    have hcond : (k : ℚ) * poll < timeout := by
      have : (k : ℚ) * poll ≤ (m : ℚ) * poll := by
        apply mul_le_mul_of_nonneg_right _ hp.le
        exact_mod_cast hk
      exact this.trans_lt hm
    rcases eq_or_lt_of_le hk with rfl | hlt
    · simp only [waitPolls, if_pos hcond, hstop, Bool.false_eq_true, if_false]
    · have hmv : (statuses k).moving = true := hbefore k hlt
      simp only [waitPolls, if_pos hcond, hmv, if_true]
      exact ih (k + 1) (by omega) (by omega)

lemma waitPolls_deadline (statuses : Nat → RoboarmStatus) (timeout poll : ℚ)
    (h : ∀ j : Nat, (j : ℚ) * poll < timeout → (statuses j).moving = true) :
    ∀ fuel k, (waitPolls statuses timeout poll fuel k).1 = false := by
  intro fuel
  induction fuel with
  | zero => intro k; rfl
  | succ n ih =>
    intro k
    by_cases hc : (k : ℚ) * poll < timeout
    · simp only [waitPolls, if_pos hc, h k hc, if_true]
      exact ih (k + 1)
    · simp only [waitPolls, if_neg hc]

/-! ## Claim theorems -/

/-- C1: for every move invocation (any subset of joints given integer
values, relative flag true or false), the encoded command is `G1` when
relative else `G0`, followed by exactly one ` J i : value` token per
specified joint in ascending 1-based joint order, and zero tokens for
unspecified joints — i.e. `moveCmd` coincides with the spec-side
`specMoveCmd` on all inputs. -/
theorem move_cmd_tokens_ascending (j1 j2 j3 j4 j5 j6 : Option Int)
    (relative : Bool) :
    moveCmd j1 j2 j3 j4 j5 j6 relative =
      specMoveCmd j1 j2 j3 j4 j5 j6 relative := by
  simp only [moveCmd, foldl_moveStep, specMoveCmd, specTokens]
  simp [List.append_assoc]

/-- C10: `move` with all six joints unspecified encodes the bare command
`G0` (or `G1` when relative), with zero joint tokens, without failing. -/
theorem move_cmd_no_joints (relative : Bool) :
    moveCmd none none none none none none relative =
      (if relative then "G1".toList else "G0".toList) := by
  cases relative <;> rfl

/-- C2: every serial status reply line of the form `FLAGS P:v1,...,v6`
(a whitespace-free flags token, then `P:` and six comma-separated integer
values) parses to a status whose `enabled` is exactly membership of `E` in
the flags token, `moving` membership of `M`, whose positions assign the
parsed integers positionally to keys `j1..j6`, and whose targets and
distances are the empty mapping. -/
theorem serial_status_line_parse (flags body : Str) (reps : List Str)
    (vals : List Int) (hfne : flags ≠ [])
    (hfws : ∀ c ∈ flags, c.isWhitespace = false)
    (hbws : ∀ c ∈ body, c.isWhitespace = false)
    (hbody : body = joinSep ',' reps) (hrne : reps ≠ [])
    (hnc : ∀ r ∈ reps, ',' ∉ r) (_hlen : reps.length = 6)
    (hvals : reps.mapM parsePyInt = some vals) :
    parseSerialStatus (flags ++ ' ' :: 'P' :: ':' :: body) =
      some { enabled := flags.contains 'E', moving := flags.contains 'M',
             positions := positionsOfParts.enumKeys 0 vals,
             targets := [], distances := [] } := by
  have hpt : ∀ c ∈ ('P' :: ':' :: body), c.isWhitespace = false := by
    intro c hc
    simp only [List.mem_cons] at hc
    rcases hc with rfl | rfl | hc
    · decide
    · decide
    · exact hbws c hc
  have hsplit : pySplitWs (flags ++ ' ' :: 'P' :: ':' :: body) =
      [flags, 'P' :: ':' :: body] := by
    rw [pySplitWs_word_cons flags _ hfne hfws,
      pySplitWs_word _ (by simp) hpt]
  have hpre : pyStartsWith ("P:".toList) ('P' :: ':' :: body) = true := by
    simp [pyStartsWith, List.isPrefixOf]
  have hpos : positionsOfParts [flags, 'P' :: ':' :: body] =
      some (positionsOfParts.enumKeys 0 vals) := by
    simp only [positionsOfParts, hpre, if_true,
      show ('P' :: ':' :: body).drop 2 = body from rfl]
    rw [hbody, splitChar_joinSep ',' reps hrne hnc, hvals]
    rfl
  simp only [parseSerialStatus, hsplit, hpos, Option.map_some']

/-- C2 witness: the two status lines named in the claim parse exactly as
stated. -/
theorem serial_status_line_parse_examples :
    parseSerialStatus ("EM P:0,500,1000,0,0,0".toList) =
      some { enabled := true, moving := true,
             positions := [("j1", 0), ("j2", 500), ("j3", 1000), ("j4", 0),
               ("j5", 0), ("j6", 0)],
             targets := [], distances := [] } ∧
    parseSerialStatus ("- P:10,20,30,40,50,60".toList) =
      some { enabled := false, moving := false,
             positions := [("j1", 10), ("j2", 20), ("j3", 30), ("j4", 40),
               ("j5", 50), ("j6", 60)],
             targets := [], distances := [] } := by
  constructor
  · exact serial_status_line_parse ("EM".toList)
      ("0,500,1000,0,0,0".toList)
      ["0".toList, "500".toList, "1000".toList, "0".toList, "0".toList,
        "0".toList]
      [0, 500, 1000, 0, 0, 0] (by decide) (by decide) (by decide) (by decide)
      (by decide) (by decide) (by decide) (by decide)
  · exact serial_status_line_parse ("-".toList)
      ("10,20,30,40,50,60".toList)
      ["10".toList, "20".toList, "30".toList, "40".toList, "50".toList,
        "60".toList]
      [10, 20, 30, 40, 50, 60] (by decide) (by decide) (by decide) (by decide)
      (by decide) (by decide) (by decide) (by decide)

/-- C3 counterexample: an exchange that receives the single non-empty line
`hello` — which starts with neither `ok` nor `error:` — and then times out
does NOT return the no-response failure: the junk line is captured and the
exchange reports success with that line as its message. -/
theorem send_serial_junk_line_cex :
    hasOkMark ("hello".toList) = false ∧ hasErrMark ("hello".toList) = false ∧
    sendSerialResult ["hello".toList] = ⟨true, "hello".toList⟩ ∧
    sendSerialResult ["hello".toList] ≠
      ⟨false, "No response from controller".toList⟩ := by
  decide

/-- C3 amended: for every serial exchange in which no non-empty line is
received before the timeout elapses (zero lines captured), `send_command`
returns success `false` with message `No response from controller`, and
does not raise. -/
theorem send_serial_no_captured_lines (incoming : List Str)
    (h : ∀ l ∈ incoming, l = []) :
    sendSerialResult incoming =
      ⟨false, "No response from controller".toList⟩ := by
  simp [sendSerialResult, collectLines_all_empty incoming h]

/-- C3 witness: a timed-out exchange that received only empty lines yields
the no-response failure result. -/
theorem send_serial_no_captured_lines_witness :
    sendSerialResult [([] : Str), ([] : Str)] =
      ⟨false, "No response from controller".toList⟩ :=
  send_serial_no_captured_lines [[], []] (by decide)

/-- C5: every serial exchange that captures at least one line (i.e. the
captured-line list has a last element) yields the captured lines joined by
newlines as its message, succeeding unless the final captured line starts
with `error:`, in which case it fails with the same joined message — the
controller's error text is carried in the result, not raised. -/
theorem send_serial_captured_lines (incoming : List Str) (lastL : Str)
    (h : (collectLines incoming).getLast? = some lastL) :
    sendSerialResult incoming =
      ⟨!hasErrMark lastL, joinSep '\n' (collectLines incoming)⟩ := by
  simp only [sendSerialResult, h]
  cases hb : hasErrMark lastL <;> simp [hb]

/-- C5 witness: a single captured `ok` line produces the successful result
whose message is that line (the spec's round-trip example). -/
theorem send_serial_captured_lines_witness :
    sendSerialResult ["ok".toList] = ⟨true, "ok".toList⟩ :=
  send_serial_captured_lines ["ok".toList] ("ok".toList) (by decide)

/-- C4 counterexample: the key-set invariant fails for replies the
transports can deliver.  A serial reply whose `P:` token carries seven
values produces a positions key `j7` outside the fixed set, and an HTTP
status payload is passed through verbatim, so a server-sent key `x` lands
in positions unchanged. -/
theorem status_keys_beyond_j6_cex :
    parseSerialStatus ("E P:1,2,3,4,5,6,7".toList) =
      some { enabled := true, moving := false,
             positions := [("j1", (1 : Int)), ("j2", 2), ("j3", 3),
               ("j4", 4), ("j5", 5), ("j6", 6), ("j7", 7)],
             targets := [], distances := [] } ∧
    ("j7", (7 : Int)) ∈ [("j1", (1 : Int)), ("j2", 2), ("j3", 3),
      ("j4", 4), ("j5", 5), ("j6", 6), ("j7", 7)] ∧
    "j7" ∉ jointKeys ∧
    (RoboarmStatus.from_dict
        ⟨none, none, some [("x", 1)], none, none, none, none⟩).positions =
      [("x", (1 : Int))] ∧
    "x" ∉ jointKeys := by
  decide

/-- C4 amended: on the serial transport, every successfully parsed status
has empty targets and distances, and — provided the reply carried at most
six position values — every positions key lies in the fixed set
`j1`..`j6`.  (With more than six values, keys `j7`, `j8`, … appear; on the
HTTP transport the mappings are whatever the server sent.) -/
theorem serial_status_keys_bounded (msg : Str) (st : RoboarmStatus)
    (h : parseSerialStatus msg = some st)
    (hlen : st.positions.length ≤ 6) : keysBounded st := by
  rcases hsp : pySplitWs msg with _ | ⟨p0, rest⟩
  · simp only [parseSerialStatus, hsp] at h
    exact Option.noConfusion h
  · simp only [parseSerialStatus, hsp, Option.map_eq_some'] at h
    obtain ⟨ps, hps, hst⟩ := h
    obtain ⟨vals, rfl⟩ := positionsOfParts_shape _ ps hps
    subst hst
    refine ⟨rfl, rfl, ?_⟩
    intro kv hkv
    obtain ⟨j, _, hjlt, hkey⟩ := enumKeys_mem vals 0 kv hkv
    have hv : vals.length ≤ 6 := by
      simpa [enumKeys_length] using hlen
    rw [hkey]
    exact key_mem_jointKeys j (by omega)

/-- C4 witness: the well-formed six-value reply from the claim's sources
parses to a status satisfying the bounded-keys invariant. -/
theorem serial_status_keys_bounded_witness :
    keysBounded { enabled := true, moving := true,
                  positions := [("j1", (0 : Int)), ("j2", 500), ("j3", 1000),
                    ("j4", 0), ("j5", 0), ("j6", 0)],
                  targets := [], distances := [] } :=
  serial_status_keys_bounded ("EM P:0,500,1000,0,0,0".toList) _
    (by decide) (by decide)

/-- C6: `wait_for_idle` polls the status stream at poll-interval steps
within the wall-clock deadline.  It returns `true` as soon as a poll within
the deadline observes `moving = false` — having issued exactly one query
per poll up to and including that one — and returns `false` when every
poll within the deadline observes `moving = true`.  The sleep of one poll
interval between successive polls is the model's time step. -/
theorem wait_for_idle_poll_spec (statuses : Nat → RoboarmStatus)
    (timeout poll : ℚ) (hp : 0 < poll) :
    (∀ m : Nat, (m : ℚ) * poll < timeout → (statuses m).moving = false →
        (∀ j < m, (statuses j).moving = true) →
        wait_for_idle statuses timeout poll = (true, m + 1)) ∧
    ((∀ j : Nat, (j : ℚ) * poll < timeout → (statuses j).moving = true) →
        (wait_for_idle statuses timeout poll).1 = false) := by
  constructor
  · intro m hm hstop hbefore
    exact waitPolls_reaches statuses timeout poll hp m hm hstop hbefore
      (waitFuel timeout poll) 0 (by omega)
      (by simpa using lt_waitFuel timeout poll hp m hm)
  · intro h
    exact waitPolls_deadline statuses timeout poll h (waitFuel timeout poll) 0

/-- A status stream that reports motion on the first two polls and idle
from the third on. -/
def demoStatuses : Nat → RoboarmStatus := fun n =>
  { enabled := true, moving := decide (n < 2),
    positions := [], targets := [], distances := [] }

/-- C6 witness: with `moving` observed true, true, false on three
successive polls (timeout 4, poll interval 1), `wait_for_idle` returns
`true` after the third poll, having issued exactly three status
queries. -/
theorem wait_for_idle_poll_spec_witness :
    wait_for_idle demoStatuses 4 1 = (true, 3) :=
  (wait_for_idle_poll_spec demoStatuses 4 1 (by norm_num)).1 2
    (by norm_num) (by decide) (by decide)

/-- C7: client construction succeeds exactly when the URL's parsed scheme
is `serial`, `http` or `https`; any other scheme makes `__init__` raise
(the `Except.error` branch of `initMode`, whose only error payload is the
configuration-error message) before any connection attempt — `initMode`
never touches a transport handle. -/
theorem init_mode_ok_iff_scheme_allowed (url : Str) :
    exceptOk (initMode url) = true ↔ urlScheme url ∈ allowedSchemes := by
  simp only [initMode, allowedSchemes, List.mem_cons, List.not_mem_nil,
    or_false]
  split_ifs with h1 h2
  · simp [exceptOk, h1]
  · rcases h2 with h2 | h2 <;> simp [exceptOk, h2]
  · push_neg at h2
    simp only [exceptOk, Bool.false_eq_true, false_iff]
    push_neg
    exact ⟨by simpa using h1, by simpa using h2.1, by simpa using h2.2⟩

/-- C8: `disconnect` is idempotent — after one `disconnect` the state has
no open handles, so a second call leaves the state unchanged and performs
no close actions — and calling it on a client with no open transport
succeeds, changes nothing and closes nothing. -/
theorem disconnect_idempotent (s : ClientState) :
    disconnect (disconnect s).1 = ((disconnect s).1, []) ∧
    (s.serialHandle = none → s.httpHandle = none →
      disconnect s = (s, [])) := by
  obtain ⟨u, t, b, sh, hh⟩ := s
  rcases sh with _ | h1 <;> rcases hh with _ | h2 <;> simp [disconnect]

/-- A just-constructed client: no transport handle open. -/
def freshClient : ClientState :=
  { url := "serial:///dev/ttyUSB0".toList, timeout := 10,
    baudRate := 115200, serialHandle := none, httpHandle := none }

/-- C8 witness: on a client with no open transport, a double `disconnect`
equals a single one, and the single call is a closing-nothing no-op. -/
theorem disconnect_idempotent_witness :
    disconnect (disconnect freshClient).1 = ((disconnect freshClient).1, []) ∧
    disconnect freshClient = (freshClient, []) :=
  ⟨(disconnect_idempotent freshClient).1,
   (disconnect_idempotent freshClient).2 rfl rfl⟩

/-- The status that the serial path produces from the no-response failure
message: disabled, not moving, all mappings empty. -/
def idleEmptyStatus : RoboarmStatus :=
  { enabled := false, moving := false,
    positions := [], targets := [], distances := [] }

/-- The status stream of a controller that never responds on serial: every
status query parses the no-response message into `idleEmptyStatus`. -/
def constIdleStatuses : Nat → RoboarmStatus := fun _ => idleEmptyStatus

/-- C9: when a serial status query times out with no lines captured,
`status()` does not raise and does not report an error: it parses the
failure message `No response from controller` as a status line, yielding
`enabled = false`, `moving = false` and empty mappings; consequently
`wait_for_idle` against a never-responding serial controller returns
`true` on its first poll (one single status query) instead of reporting
the timeout. -/
theorem serial_timeout_status_parsed_idle (incoming : List Str)
    (h : ∀ l ∈ incoming, l = []) :
    serialStatus incoming = some idleEmptyStatus ∧
    ∀ timeout poll : ℚ, 0 < poll → 0 < timeout →
      wait_for_idle constIdleStatuses timeout poll = (true, 1) := by
  constructor
  · show parseSerialStatus (sendSerialResult incoming).message =
      some idleEmptyStatus
    rw [show sendSerialResult incoming =
        ⟨false, "No response from controller".toList⟩ by
      simp [sendSerialResult, collectLines_all_empty incoming h]]
    decide
  · intro timeout poll _hp ht
    have hcond : (((0 : Nat) : ℚ)) * poll < timeout := by simpa using ht
    unfold wait_for_idle waitFuel
    simp only [waitPolls, hcond, if_true, constIdleStatuses, idleEmptyStatus,
      Bool.false_eq_true, if_false]

/-- C9 witness: a query with zero lines received yields the parsed idle
status, and `wait_for_idle` with the library defaults (timeout 60, poll
interval 1/10) returns `true` after a single query. -/
theorem serial_timeout_status_parsed_idle_witness :
    serialStatus [] = some idleEmptyStatus ∧
    wait_for_idle constIdleStatuses 60 (1 / 10) = (true, 1) :=
  ⟨(serial_timeout_status_parsed_idle [] (by simp)).1,
   (serial_timeout_status_parsed_idle [] (by simp)).2 60 (1 / 10)
     (by norm_num) (by norm_num)⟩
